import Mathlib

/-!
Verification of the QRC client in `src/extension.ts` (qsys-deploy).

The development shallowly embeds the protocol client: the byte-stream framer
`processRawBuffer`, the message dispatcher `processMessage` together with the
response callback registered by `sendCommand`, the client state machine
(`sendCommand`, `disconnect`), the wire serialization performed by
`sendCommand` (`JSON.stringify` plus a NUL terminator), the response
normalizers `getComponents` and `getScript`, and the caller-side
`validateComponent` / `deployScript` logic from the extension entry file.

Bytes are modelled as `Nat` (the code scans `Buffer` bytes), JSON values by an
inductive `Json` type with integer numerics, and JavaScript strings by `String`
or `List Char`.  JavaScript truthiness is modelled by `jsTruthy`; code paths
that throw a `TypeError` are modelled with `Except`.
-/

namespace QsysDeploy

/-! ## Byte-stream framer (`processRawBuffer`, extension.ts lines 106-138)

The scan walks the buffer once; at each byte equal to `0x00` or `0x0A` the
span since the previous delimiter is decoded, trimmed of surrounding
whitespace and, when non-empty, emitted to `processMessage`.  The suffix
after the last delimiter is returned as the new carry buffer.  We model the
emitted frames as trimmed byte lists (the code additionally UTF-8 decodes
them; the decoding applies per complete span and is irrelevant to the framing
claims) and trimming as removal of ASCII whitespace bytes, matching
`String.prototype.trim` on ASCII data. -/

def isDelim (b : Nat) : Bool := b == 0 || b == 10

def isWsByte (b : Nat) : Bool :=
  b == 9 || b == 10 || b == 11 || b == 12 || b == 13 || b == 32

def trimBytes (l : List Nat) : List Nat :=
  ((l.dropWhile isWsByte).reverse.dropWhile isWsByte).reverse

/-- One left-to-right scan of `processRawBuffer`: `acc` is the span since the
last delimiter (`messageStart .. currentPosition`); the result is the list of
emitted frames together with the unprocessed suffix returned by the code. -/
def frameScan (acc : List Nat) : List Nat → List (List Nat) × List Nat
  | [] => ([], acc)
  | b :: rest =>
    if isDelim b then
      let res := frameScan [] rest
      let msg := trimBytes acc
      if msg.isEmpty then res else (msg :: res.1, res.2)
    else
      frameScan (acc ++ [b]) rest

/-- `processRawBuffer buffer` = (frames handed to `processMessage`, remaining
buffer returned to the caller). -/
def processRawBuffer (buffer : List Nat) : List (List Nat) × List Nat :=
  frameScan [] buffer

/-- The `data` handler of `connect` (lines 49-60): each chunk is appended to
the carried buffer, `processRawBuffer` runs, and its returned suffix becomes
the carry for the next chunk.  Result: all frames emitted over the chunk
sequence, in order, with the final carry. -/
def feedChunks (chunks : List (List Nat)) : List (List Nat) × List Nat :=
  chunks.foldl
    (fun st chunk =>
      let r := processRawBuffer (st.2 ++ chunk)
      (st.1 ++ r.1, r.2))
    ([], [])

/-- ASCII bytes of a string literal, for concrete framing inputs. -/
def strBytes (s : String) : List Nat := s.data.map Char.toNat

/-- The concrete mixed-delimiter buffer from the spec:
the bytes of a first JSON object, a NUL, a second object, an LF, and a third
object with no trailing delimiter. -/
def mixedDelimiterBuffer : List Nat :=
  strBytes "\x7b\"a\":1\x7d" ++ [0] ++ strBytes "\x7b\"b\":2\x7d" ++ [10] ++ strBytes "\x7b\"c\":3\x7d"

/-! ## JSON values

`JSON.parse` results and `JSON.stringify` inputs.  Numbers are modelled as
integers (the ids and control values exercised by the client are integral);
object fields are an association list in insertion order, which is the order
`JSON.stringify` serializes and (for parsed objects with unique keys, the only
kind the protocol produces) the order `JSON.parse` yields. -/

inductive Json where
  | null
  | bool (b : Bool)
  | num (i : Int)
  | str (s : String)
  | arr (elems : List Json)
  | obj (fields : List (String × Json))

/-- JavaScript property access `v.k` on a parsed JSON value: a lookup on
objects, `undefined` (`none`) on every other non-null value.  Access on
`null`/`undefined` throws and is modelled at each use site. -/
def getField : Json → String → Option Json
  | .obj fs, k => fs.lookup k
  | _, _ => none

/-- JavaScript truthiness of a JSON value. -/
def jsTruthy : Json → Bool
  | .null => false
  | .bool b => b
  | .num i => i != 0
  | .str s => s != ""
  | .arr _ => true
  | .obj _ => true

/-- JavaScript truthiness of a possibly-undefined value. -/
def jsTruthyOpt : Option Json → Bool
  | none => false
  | some v => jsTruthy v

/-! ## `JSON.stringify` (used by `sendCommand`, line 189)

Rendered to a character list.  String contents are escaped exactly as
`JSON.stringify` does for the characters the client can produce: quote,
backslash, and the named/`\u00XX` control escapes. -/

def digitChar (d : Nat) : Char := Char.ofNat (48 + d)

def natDigitsAux : Nat → Nat → List Char
  | 0, _ => []
  | f + 1, n =>
    if n < 10 then [digitChar n]
    else natDigitsAux f (n / 10) ++ [digitChar (n % 10)]

def natToChars (n : Nat) : List Char := natDigitsAux n.succ n

def intToChars (i : Int) : List Char :=
  if i < 0 then '-' :: natToChars i.natAbs else natToChars i.natAbs

def hexDigitChar (d : Nat) : Char :=
  if d < 10 then Char.ofNat (48 + d) else Char.ofNat (87 + d)

def escChar (c : Char) : List Char :=
  if c = '\"' then ['\\', '\"']
  else if c = '\\' then ['\\', '\\']
  else if c = '\x08' then ['\\', 'b']
  else if c = '\x09' then ['\\', 't']
  else if c = '\x0a' then ['\\', 'n']
  else if c = '\x0c' then ['\\', 'f']
  else if c = '\x0d' then ['\\', 'r']
  else if c.toNat < 32 then
    ['\\', 'u', '0', '0', hexDigitChar (c.toNat / 16), hexDigitChar (c.toNat % 16)]
  else [c]

def escList : List Char → List Char
  | [] => []
  | c :: cs => escChar c ++ escList cs

mutual

def jstringify : Json → List Char
  | .null => "null".data
  | .bool b => if b then "true".data else "false".data
  | .num i => intToChars i
  | .str s => '"' :: escList s.data ++ ['"']
  | .arr xs => '[' :: jstringifyArr xs ++ [']']
  | .obj fs => '{' :: jstringifyObj fs ++ ['}']

def jstringifyArr : List Json → List Char
  | [] => []
  | [x] => jstringify x
  | x :: y :: xs => jstringify x ++ ',' :: jstringifyArr (y :: xs)

def jstringifyObj : List (String × Json) → List Char
  | [] => []
  | [(k, v)] => '"' :: escList k.data ++ '"' :: ':' :: jstringify v
  | (k, v) :: f :: fs =>
    ('"' :: escList k.data ++ '"' :: ':' :: jstringify v) ++ ',' :: jstringifyObj (f :: fs)

end

/-- A character that can never occur inside `jstringify` output: the two
frame delimiters recognized on receive. -/
def goodChar (c : Char) : Prop := c ≠ '\x00' ∧ c ≠ '\n'

/-- The command envelope built by `sendCommand` (lines 182-187), in the
object-literal insertion order `JSON.stringify` serializes. -/
def cmdJson (method : String) (params : Json) (id : Int) : Json :=
  .obj [("jsonrpc", .str "2.0"), ("method", .str method), ("params", params), ("id", .num id)]

/-- The characters `sendCommand` writes to the socket (line 202):
`JSON.stringify(command) + '\0'`. -/
def writtenChars (method : String) (params : Json) (id : Int) : List Char :=
  jstringify (cmdJson method params id) ++ ['\x00']

/-! ## Message dispatch (`processMessage`, lines 141-169, with the response
callback registered by `sendCommand`, lines 192-199)

The pending map `responseCallbacks` is keyed by the numeric ids `sendCommand`
allocates; every registered callback has the same body, so the map is
modelled by its key set (a duplicate-free list of `Nat`) and the callback
body by `settleResponse`. -/

inductive CallOutcome where
  | rejected (message : Json)
  | resolved (result : Option Json)

/-- `response.error.message || 'Unknown error'` (line 195): the `message`
field of the error value when truthy, the generic message otherwise. -/
def errorMessageOf (e : Json) : Json :=
  match getField e "message" with
  | some m => if jsTruthy m then m else .str "Unknown error"
  | none => .str "Unknown error"

/-- The callback body registered by `sendCommand` (lines 192-199): reject
with `error.message || 'Unknown error'` when `response.error` is truthy,
otherwise resolve with `response.result`. -/
def settleResponse (resp : Json) : CallOutcome :=
  match getField resp "error" with
  | some e =>
    if jsTruthy e then .rejected (errorMessageOf e)
    else .resolved (getField resp "result")
  | none => .resolved (getField resp "result")

/-- `processMessage` after a successful `JSON.parse` (lines 146-161): when
`response.id` is truthy and a callback is registered under that numeric id,
run the callback and delete the entry; otherwise (unsolicited `method`
messages and unmatched ids) only log.  Returns the settled call, if any,
and the new pending-key list. -/
def processMessage (pending : List Nat) (resp : Json) :
    Option (Nat × CallOutcome) × List Nat :=
  match getField resp "id" with
  | some (.num (Int.ofNat n)) =>
    if n ≠ 0 ∧ n ∈ pending then
      (some (n, settleResponse resp), pending.erase n)
    else
      (none, pending)
  | _ => (none, pending)

/-! ## Client state machine (`QrcClient`, lines 29-204)

`socket` models whether `this.socket` is non-null; `messageId` and the
pending key list are the instance fields of the same names; `written` is the
transcript of socket writes.  JavaScript runs the class single-threaded, so
"concurrent" calls are interleavings of these atomic steps. -/

structure QrcClient where
  socket : Bool
  messageId : Nat
  responseCallbacks : List Nat
  written : List (List Char)

/-- A freshly constructed client: `socket = null`, `messageId = 1`, empty
callback map (lines 30-33). -/
def freshClient : QrcClient :=
  { socket := false, messageId := 1, responseCallbacks := [], written := [] }

inductive SendResult where
  | rejected (msg : String)
  | sent (id : Nat)

/-- `sendCommand` (lines 172-204): fail fast when the socket is null,
otherwise allocate `messageId++`, register the callback under the new id and
write the framed command. -/
def sendCommand (st : QrcClient) (method : String) (params : Json) :
    QrcClient × SendResult :=
  if st.socket then
    ({ st with
        messageId := st.messageId + 1,
        responseCallbacks := st.responseCallbacks ++ [st.messageId],
        written := st.written ++ [writtenChars method params (Int.ofNat st.messageId)] },
     .sent st.messageId)
  else
    (st, .rejected "Not connected to Q-SYS Core")

/-- `disconnect` (lines 77-82): destroy the socket if present and null the
field.  Nothing else is touched — in particular `responseCallbacks` keeps
every pending entry. -/
def disconnect (st : QrcClient) : QrcClient :=
  if st.socket then { st with socket := false } else st

inductive ClientOp where
  | connect
  | disconnect
  | send (method : String) (params : Json)

/-- One client API step; `connect` (lines 41-74) installs a fresh socket and
leaves `messageId` and the callback map untouched.  A `send` step reports the
allocated id, if any. -/
def stepOp (st : QrcClient) : ClientOp → QrcClient × Option Nat
  | .connect => ({ st with socket := true }, none)
  | .disconnect => (disconnect st, none)
  | .send m p =>
    match sendCommand st m p with
    | (st2, .sent i) => (st2, some i)
    | (st2, .rejected _) => (st2, none)

/-- Run a sequence of client API calls, collecting the allocated ids in
order. -/
def runOps (st : QrcClient) : List ClientOp → QrcClient × List Nat
  | [] => (st, [])
  | op :: ops =>
    let r := stepOp st op
    let rest := runOps r.1 ops
    (rest.1, r.2.toList ++ rest.2)

/-! ## `getComponents` (lines 219-243)

Given the resolved `result` of the `Component.GetComponents` call (`none` is
JavaScript `undefined`).  `Array.isArray(result)` returns the bare array;
otherwise `result.Components` is read — a `TypeError` on `null`/`undefined`,
caught and rethrown as a failure by the surrounding `catch` — and returned
when it is an array; every remaining shape yields `[]`. -/

def getComponents (result : Option Json) : Except String (List Json) :=
  match result with
  | some (.arr xs) => .ok xs
  | none => .error "Failed to get components: TypeError"
  | some .null => .error "Failed to get components: TypeError"
  | some r =>
    match getField r "Components" with
    | some (.arr ys) => .ok ys
    | _ => .ok []

/-! ## `getScript` (lines 268-293) -/

/-- `result.Controls.find(c => c.Name === "code")`: scan in order; reading
`.Name` off a `null` element throws (caught and rethrown by `getScript`). -/
def findCodeControl : List Json → Except String (Option Json)
  | [] => .ok none
  | c :: cs =>
    match c with
    | .null => .error "TypeError: cannot read properties of null"
    | _ =>
      match getField c "Name" with
      | some (.str s) => if s == "code" then .ok (some c) else findCodeControl cs
      | _ => findCodeControl cs

/-- `getScript` given the resolved `Component.Get` result: the guard
`result && result.Controls && result.Controls.length > 0`, the `find` for the
`code` control, the `codeControl && codeControl.Value` truthiness check, and
the `''` fallback.  A truthy non-array `Controls` with a positive `length`
(a non-empty string) reaches `.find`, which is not a function there. -/
def getScript (result : Option Json) : Except String Json :=
  match result with
  | some r =>
    if jsTruthy r then
      match getField r "Controls" with
      | some ctrls =>
        if jsTruthy ctrls then
          match ctrls with
          | .arr cs =>
            if 0 < cs.length then
              match findCodeControl cs with
              | .error e => .error e
              | .ok none => .ok (.str "")
              | .ok (some c) =>
                match getField c "Value" with
                | some v => if jsTruthy v then .ok v else .ok (.str "")
                | none => .ok (.str "")
            else .ok (.str "")
          | .str s =>
            if 0 < s.length then .error "TypeError: find is not a function"
            else .ok (.str "")
          | _ => .ok (.str "")
        else .ok (.str "")
      | none => .ok (.str "")
    else .ok (.str "")
  | none => .ok (.str "")

/-! ## Component validation and deployment (extension entry file,
`validateComponent` lines 353-417 and `deployScript` lines 420-475)

`Type` is a Lean keyword, so the component field is spelled `Type_`. -/

structure QComponent where
  Name : String
  ID : String
  Type_ : String

def validTypes : List String :=
  ["device_controller_script", "control_script_2", "scriptable_controls"]

/-- The matching loop of `validateComponent` (lines 377-393): first component
whose `Name`, or failing that `ID`, equals the target, in enumeration
order. -/
def findComponent (comps : List QComponent) (name : String) : Option QComponent :=
  comps.find? fun comp => comp.Name == name || comp.ID == name

/-- `validateComponent` outcome given the enumerated component list: `false`
when no component matches or the matched `Type` is outside the allow-list
(lines 395-411). -/
def validateComponent (comps : List QComponent) (name : String) : Bool :=
  match findComponent comps name with
  | none => false
  | some comp => validTypes.contains comp.Type_

/-- The QRC methods `deployScript` issues after a successful connect, given
the component list the core returns, paired with the deployment outcome:
optional `login`, then `Component.GetComponents` (inside
`validateComponent`), then `Component.Set` only when validation succeeded
(lines 432-466). -/
def deployScriptRun (auth : Bool) (comps : List QComponent) (name : String) :
    Bool × List String :=
  let cmds := (if auth then ["login"] else []) ++ ["Component.GetComponents"]
  if validateComponent comps name then
    (true, cmds ++ ["Component.Set"])
  else
    (false, cmds)

/-! ## Theorems -/

theorem frameScan_append (xs : List Nat) :
    ∀ (ys acc : List Nat),
      frameScan acc (xs ++ ys) =
        ((frameScan acc xs).1 ++ (frameScan (frameScan acc xs).2 ys).1,
         (frameScan (frameScan acc xs).2 ys).2) := by
  induction xs with
  | nil => intro ys acc; simp [frameScan]
  | cons b rest ih =>
    intro ys acc
    by_cases hd : isDelim b
    · by_cases hm : (trimBytes acc).isEmpty
      · simp [frameScan, hd, hm, ih ys []]
      · simp [frameScan, hd, hm, ih ys []]
    · simp [frameScan, hd, ih ys (acc ++ [b])]

theorem frameScan_no_delim (rem : List Nat)
    (h : ∀ b ∈ rem, isDelim b = false) :
    ∀ acc : List Nat, frameScan acc rem = ([], acc ++ rem) := by
  induction rem with
  | nil => intro acc; simp [frameScan]
  | cons b rest ih =>
    intro acc
    have hb : isDelim b = false := h b (by simp)
    have hrest : ∀ x ∈ rest, isDelim x = false := fun x hx => h x (by simp [hx])
    simp [frameScan, hb, ih hrest]

theorem frameScan_rem_no_delim (xs : List Nat) :
    ∀ acc : List Nat, (∀ b ∈ acc, isDelim b = false) →
      ∀ b ∈ (frameScan acc xs).2, isDelim b = false := by
  induction xs with
  | nil => intro acc hacc; simpa [frameScan] using hacc
  | cons b rest ih =>
    intro acc hacc
    by_cases hd : isDelim b
    · by_cases hm : (trimBytes acc).isEmpty
      · simpa [frameScan, hd, hm] using ih [] (by simp)
      · simpa [frameScan, hd, hm] using ih [] (by simp)
    · refine ?_
      have hacc' : ∀ x ∈ acc ++ [b], isDelim x = false := by
        intro x hx
        rcases List.mem_append.mp hx with h1 | h1
        · exact hacc x h1
        · simp only [List.mem_singleton] at h1
          subst h1
          simpa using hd
      simpa [frameScan, hd] using ih (acc ++ [b]) hacc'

theorem feedChunks_foldl (chunks : List (List Nat)) :
    ∀ (fs : List (List Nat)) (rem : List Nat),
      (∀ b ∈ rem, isDelim b = false) →
      chunks.foldl
        (fun st chunk =>
          let r := processRawBuffer (st.2 ++ chunk)
          (st.1 ++ r.1, r.2))
        (fs, rem) =
      (fs ++ (frameScan rem chunks.flatten).1, (frameScan rem chunks.flatten).2) := by
  induction chunks with
  | nil => intro fs rem _; simp [frameScan]
  | cons c cs ih =>
    intro fs rem hrem
    have hstep : processRawBuffer (rem ++ c) = frameScan rem c := by
      unfold processRawBuffer
      rw [frameScan_append rem c []]
      rw [frameScan_no_delim rem hrem []]
      simp
    have hrem' : ∀ b ∈ (frameScan rem c).2, isDelim b = false :=
      frameScan_rem_no_delim c rem hrem
    have hsplit :
        frameScan rem (c ++ cs.flatten) =
          ((frameScan rem c).1 ++ (frameScan (frameScan rem c).2 cs.flatten).1,
           (frameScan (frameScan rem c).2 cs.flatten).2) :=
      frameScan_append c cs.flatten rem
    simp only [List.foldl_cons, List.flatten_cons, hstep, hsplit]
    rw [ih (fs ++ (frameScan rem c).1) (frameScan rem c).2 hrem']
    simp

/-- C1: feeding a byte sequence to the framer in arbitrary chunks, carrying
the returned unprocessed suffix between calls exactly as the `data` handler
does, emits the same ordered frame sequence (and leaves the same carry) as a
single `processRawBuffer` call on the whole sequence. -/
theorem chunking_independence (chunks : List (List Nat)) :
    feedChunks chunks = processRawBuffer chunks.flatten := by
  unfold feedChunks
  rw [feedChunks_foldl chunks [] [] (by simp)]
  simp [processRawBuffer]

/-- C7 counterexample: the claim asserts three frames for the mixed-delimiter
buffer although the third object carries no trailing delimiter; the framer
emits only the two delimited frames and retains the third object as the
unprocessed carry (spec section 4.2's own retention rule). -/
theorem mixed_delimiters_not_three_frames :
    (processRawBuffer mixedDelimiterBuffer).1.length = 2 ∧
    (processRawBuffer mixedDelimiterBuffer).1 ≠
      [strBytes "\x7b\"a\":1\x7d", strBytes "\x7b\"b\":2\x7d", strBytes "\x7b\"c\":3\x7d"] := by
  decide

/-- C7 (amended): the mixed-delimiter buffer yields exactly the two frames
terminated by the NUL and the LF, in order, with the undelimited third object
returned as the unprocessed remainder. -/
theorem mixed_delimiters_frames :
    processRawBuffer mixedDelimiterBuffer =
      ([strBytes "\x7b\"a\":1\x7d", strBytes "\x7b\"b\":2\x7d"], strBytes "\x7b\"c\":3\x7d") := by
  decide

theorem digitChar_good (d : Nat) (h : d < 10) : goodChar (digitChar d) := by
  interval_cases d <;> exact ⟨by decide, by decide⟩

theorem hexDigitChar_good (d : Nat) (h : d < 16) : goodChar (hexDigitChar d) := by
  interval_cases d <;> exact ⟨by decide, by decide⟩

theorem natDigitsAux_good (fuel : Nat) : ∀ n, ∀ c ∈ natDigitsAux fuel n, goodChar c := by
  induction fuel with
  | zero => intro n c hc; simp [natDigitsAux] at hc
  | succ f ih =>
    intro n c hc
    by_cases h10 : n < 10
    · simp [natDigitsAux, h10] at hc
      subst hc
      exact digitChar_good n h10
    · simp only [natDigitsAux, h10, if_false] at hc
      rcases List.mem_append.mp hc with h1 | h1
      · exact ih (n / 10) c h1
      · simp only [List.mem_singleton] at h1
        subst h1
        exact digitChar_good _ (Nat.mod_lt _ (by norm_num))

theorem intToChars_good (i : Int) : ∀ c ∈ intToChars i, goodChar c := by
  intro c hc
  unfold intToChars at hc
  split at hc
  · rcases List.mem_cons.mp hc with h | h
    · subst h; exact ⟨by decide, by decide⟩
    · exact natDigitsAux_good _ _ c h
  · exact natDigitsAux_good _ _ c hc

theorem escChar_good (c : Char) : ∀ x ∈ escChar c, goodChar x := by
  intro x hx
  unfold escChar at hx
  split_ifs at hx with h1 h2 h3 h4 h5 h6 h7 h8
  · fin_cases hx <;> exact ⟨by decide, by decide⟩
  · fin_cases hx <;> exact ⟨by decide, by decide⟩
  · fin_cases hx <;> exact ⟨by decide, by decide⟩
  · fin_cases hx <;> exact ⟨by decide, by decide⟩
  · fin_cases hx <;> exact ⟨by decide, by decide⟩
  · fin_cases hx <;> exact ⟨by decide, by decide⟩
  · fin_cases hx <;> exact ⟨by decide, by decide⟩
  · fin_cases hx
    · exact ⟨by decide, by decide⟩
    · exact ⟨by decide, by decide⟩
    · exact ⟨by decide, by decide⟩
    · exact ⟨by decide, by decide⟩
    · exact hexDigitChar_good _ (by omega)
    · exact hexDigitChar_good _ (Nat.mod_lt _ (by norm_num))
  · simp only [List.mem_singleton] at hx
    subst hx
    exact ⟨fun h => h8 (by subst h; decide), h5⟩

theorem escList_good (l : List Char) : ∀ x ∈ escList l, goodChar x := by
  induction l with
  | nil => intro x hx; simp [escList] at hx
  | cons c cs ih =>
    intro x hx
    unfold escList at hx
    rcases List.mem_append.mp hx with h | h
    · exact escChar_good c x h
    · exact ih x h

mutual

theorem jstringify_good : ∀ j : Json, ∀ c ∈ jstringify j, goodChar c
  | .null, c, hc => by
    simp only [jstringify] at hc
    fin_cases hc <;> exact ⟨by decide, by decide⟩
  | .bool true, c, hc => by
    simp only [jstringify, if_true] at hc
    fin_cases hc <;> exact ⟨by decide, by decide⟩
  | .bool false, c, hc => by
    simp only [jstringify, if_false, Bool.false_eq_true] at hc
    fin_cases hc <;> exact ⟨by decide, by decide⟩
  | .num i, c, hc => intToChars_good i c (by simpa only [jstringify] using hc)
  | .str s, c, hc => by
    simp only [jstringify] at hc
    rcases List.mem_cons.mp hc with h | h
    · subst h; exact ⟨by decide, by decide⟩
    rcases List.mem_append.mp h with h2 | h2
    · exact escList_good s.data c h2
    · rcases List.mem_singleton.mp h2 with rfl; exact ⟨by decide, by decide⟩
  | .arr xs, c, hc => by
    simp only [jstringify] at hc
    rcases List.mem_cons.mp hc with h | h
    · subst h; exact ⟨by decide, by decide⟩
    rcases List.mem_append.mp h with h2 | h2
    · exact jstringifyArr_good xs c h2
    · rcases List.mem_singleton.mp h2 with rfl; exact ⟨by decide, by decide⟩
  | .obj fs, c, hc => by
    simp only [jstringify] at hc
    rcases List.mem_cons.mp hc with h | h
    · subst h; exact ⟨by decide, by decide⟩
    rcases List.mem_append.mp h with h2 | h2
    · exact jstringifyObj_good fs c h2
    · rcases List.mem_singleton.mp h2 with rfl; exact ⟨by decide, by decide⟩

theorem jstringifyArr_good : ∀ xs : List Json, ∀ c ∈ jstringifyArr xs, goodChar c
  | [], c, hc => by simp [jstringifyArr] at hc
  | [x], c, hc => jstringify_good x c (by simpa only [jstringifyArr] using hc)
  | x :: y :: xs, c, hc => by
    simp only [jstringifyArr] at hc
    rcases List.mem_append.mp hc with h | h
    · exact jstringify_good x c h
    rcases List.mem_cons.mp h with h2 | h2
    · subst h2; exact ⟨by decide, by decide⟩
    · exact jstringifyArr_good (y :: xs) c h2

theorem jstringifyObj_good : ∀ fs : List (String × Json), ∀ c ∈ jstringifyObj fs, goodChar c
  | [], c, hc => by simp [jstringifyObj] at hc
  | [(k, v)], c, hc => by
    simp only [jstringifyObj] at hc
    rcases List.mem_cons.mp hc with h | h
    · subst h; exact ⟨by decide, by decide⟩
    rcases List.mem_append.mp h with h2 | h2
    · exact escList_good k.data c h2
    rcases List.mem_cons.mp h2 with h3 | h3
    · subst h3; exact ⟨by decide, by decide⟩
    rcases List.mem_cons.mp h3 with h4 | h4
    · subst h4; exact ⟨by decide, by decide⟩
    · exact jstringify_good v c h4
  | (k, v) :: f :: fs, c, hc => by
    simp only [jstringifyObj] at hc
    rcases List.mem_append.mp hc with hh | hh
    · rcases List.mem_cons.mp hh with h | h
      · subst h; exact ⟨by decide, by decide⟩
      rcases List.mem_append.mp h with h2 | h2
      · exact escList_good k.data c h2
      rcases List.mem_cons.mp h2 with h3 | h3
      · subst h3; exact ⟨by decide, by decide⟩
      rcases List.mem_cons.mp h3 with h4 | h4
      · subst h4; exact ⟨by decide, by decide⟩
      · exact jstringify_good v c h4
    · rcases List.mem_cons.mp hh with h2 | h2
      · subst h2; exact ⟨by decide, by decide⟩
      · exact jstringifyObj_good (f :: fs) c h2

end

theorem escList_key_jsonrpc :
    escList ['j', 's', 'o', 'n', 'r', 'p', 'c'] = ['j', 's', 'o', 'n', 'r', 'p', 'c'] := by
  decide

theorem escList_key_method :
    escList ['m', 'e', 't', 'h', 'o', 'd'] = ['m', 'e', 't', 'h', 'o', 'd'] := by
  decide

theorem escList_key_params :
    escList ['p', 'a', 'r', 'a', 'm', 's'] = ['p', 'a', 'r', 'a', 'm', 's'] := by
  decide

theorem escList_key_id : escList ['i', 'd'] = ['i', 'd'] := by decide

theorem escList_two_zero : escList ['2', '.', '0'] = ['2', '.', '0'] := by decide

/-- C5 counterexample: the command envelope `sendCommand` serializes names
its version field `jsonrpc`, not `protocolVersion`.  Concretely, the bytes
written for method `"m"`, params `[]`, id `1` are shown below, and they do
not contain the character `V` — while any JSON serialization of an object
with a member named `protocolVersion` contains the member name, hence a `V`.
So the claimed wire shape is wrong at this input. -/
theorem wire_format_field_name_cex :
    writtenChars "m" (.arr []) 1 =
      "\x7b\"jsonrpc\":\"2.0\",\"method\":\"m\",\"params\":[],\"id\":1\x7d".data ++ ['\x00'] ∧
    'V' ∉ writtenChars "m" (.arr []) 1 := by
  decide

/-- C5 (amended): `sendCommand` writes the UTF-8 JSON serialization of the
object with fields `jsonrpc` (value `"2.0"`), `method`, `params`, and `id` —
in that order, with the `method` string escaped — followed by exactly one
`0x00` byte and containing no LF anywhere (so in particular no LF
terminator). -/
theorem sendCommand_wire_format (method : String) (params : Json) (id : Int) :
    writtenChars method params id =
      "\x7b\"jsonrpc\":\"2.0\",\"method\":\"".data ++ escList method.data ++
        "\",\"params\":".data ++ jstringify params ++
        ",\"id\":".data ++ intToChars id ++ "\x7d".data ++ ['\x00'] ∧
    (writtenChars method params id).count '\x00' = 1 ∧
    '\n' ∉ writtenChars method params id := by
  refine ⟨?_, ?_, ?_⟩
  · simp only [writtenChars, cmdJson, jstringify, jstringifyObj]
    simp [List.append_assoc, escList_key_jsonrpc, escList_key_method,
      escList_key_params, escList_key_id, escList_two_zero]
  · unfold writtenChars
    rw [List.count_append]
    have h0 : ('\x00' : Char) ∉ jstringify (cmdJson method params id) := by
      intro hmem
      exact (jstringify_good _ _ hmem).1 rfl
    rw [List.count_eq_zero.mpr h0]
    decide
  · unfold writtenChars
    intro hmem
    rcases List.mem_append.mp hmem with h | h
    · exact (jstringify_good _ _ h).2 rfl
    · simp at h

/-- C2 counterexample: a message that contains an `error` field whose value
is `null` is not rejected — `processMessage`'s callback tests the field's
truthiness (`if (response.error)`), not its presence, so the call resolves
with the `result` field instead of the rejection the claim requires. -/
theorem processMessage_null_error_cex :
    getField (Json.obj [("id", .num 1), ("error", .null), ("result", .num 7)]) "error" =
      some .null ∧
    processMessage [1] (Json.obj [("id", .num 1), ("error", .null), ("result", .num 7)]) =
      (some (1, .resolved (some (.num 7))), []) := by
  exact ⟨rfl, rfl⟩

/-- C2 (amended): for a parsed message whose numeric id has a registered
PendingCall (registered ids are positive and the map keys are
duplicate-free), the call is settled and its entry removed: rejected with
`error.message` when the `error` field is present and truthy (with the
generic `Unknown error` when the `message` field is absent or falsy),
resolved with the `result` field when `error` is absent or falsy; and a
second message with the same id is inert. -/
theorem processMessage_resolves_pending (pending : List Nat) (resp : Json) (n : Nat)
    (hid : getField resp "id" = some (.num (Int.ofNat n)))
    (hpos : n ≠ 0) (hmem : n ∈ pending) (hnd : pending.Nodup) :
    (∀ e, getField resp "error" = some e → jsTruthy e = true →
        processMessage pending resp =
          (some (n, .rejected (errorMessageOf e)), pending.erase n)) ∧
    (getField resp "error" = none →
        processMessage pending resp =
          (some (n, .resolved (getField resp "result")), pending.erase n)) ∧
    (∀ e, getField resp "error" = some e → jsTruthy e = false →
        processMessage pending resp =
          (some (n, .resolved (getField resp "result")), pending.erase n)) ∧
    (∀ e m, getField e "message" = some m → jsTruthy m = true → errorMessageOf e = m) ∧
    (∀ e, getField e "message" = none → errorMessageOf e = .str "Unknown error") ∧
    (∀ e m, getField e "message" = some m → jsTruthy m = false →
        errorMessageOf e = .str "Unknown error") ∧
    processMessage (pending.erase n) resp = (none, pending.erase n) := by
  have hrun : processMessage pending resp =
      (some (n, settleResponse resp), pending.erase n) := by
    unfold processMessage
    rw [hid]
    simp [hpos, hmem]
  have hne : n ∉ pending.erase n := hnd.not_mem_erase
  refine ⟨?_, ?_, ?_, ?_, ?_, ?_, ?_⟩
  · intro e he htr
    rw [hrun]
    unfold settleResponse
    rw [he]
    simp [htr]
  · intro he
    rw [hrun]
    unfold settleResponse
    rw [he]
  · intro e he htr
    rw [hrun]
    unfold settleResponse
    rw [he]
    simp [htr]
  · intro e m hm htr
    unfold errorMessageOf
    rw [hm]
    simp [htr]
  · intro e hm
    unfold errorMessageOf
    rw [hm]
  · intro e m hm htr
    unfold errorMessageOf
    rw [hm]
    simp [htr]
  · unfold processMessage
    rw [hid]
    simp [hne]

/-- Witness for C2's theorem: a registered id `1`, a rejection carrying the
error message, and inertness of a second delivery of the same message. -/
theorem processMessage_resolves_pending_witness :
    processMessage [1]
        (Json.obj [("id", .num 1), ("error", .obj [("message", .str "boom")])]) =
      (some (1, .rejected (.str "boom")), []) ∧
    processMessage []
        (Json.obj [("id", .num 1), ("error", .obj [("message", .str "boom")])]) =
      (none, []) := by
  have h := processMessage_resolves_pending [1]
    (Json.obj [("id", .num 1), ("error", .obj [("message", .str "boom")])]) 1
    rfl (by decide) (by simp) (by simp)
  exact ⟨h.1 (.obj [("message", .str "boom")]) rfl rfl, h.2.2.2.2.2.2⟩

theorem runOps_ids_aux (ops : List ClientOp) :
    ∀ st : QrcClient,
      st.messageId ≤ (runOps st ops).1.messageId ∧
      (runOps st ops).2 =
        List.range' st.messageId ((runOps st ops).1.messageId - st.messageId) := by
  induction ops with
  | nil => intro st; simp [runOps]
  | cons op ops ih =>
    intro st
    cases op with
    | connect =>
      simpa [runOps, stepOp] using ih { st with socket := true }
    | disconnect =>
      have hmid : (QsysDeploy.disconnect st).messageId = st.messageId := by
        unfold QsysDeploy.disconnect
        split <;> rfl
      have h := ih (QsysDeploy.disconnect st)
      rw [hmid] at h
      simpa [runOps, stepOp] using h
    | send m p =>
      by_cases hs : st.socket
      · have h := ih ⟨true, st.messageId + 1, st.responseCallbacks ++ [st.messageId],
          st.written ++ [writtenChars m p (Int.ofNat st.messageId)]⟩
        simp only [runOps, stepOp, sendCommand, hs, if_true]
        rcases hrun : runOps ⟨true, st.messageId + 1, st.responseCallbacks ++ [st.messageId],
          st.written ++ [writtenChars m p (Int.ofNat st.messageId)]⟩ ops with ⟨st2, ids⟩
        rw [hrun] at h
        dsimp only at h ⊢
        obtain ⟨hle, hids⟩ := h
        refine ⟨by omega, ?_⟩
        have hk : st2.messageId - st.messageId =
            (st2.messageId - (st.messageId + 1)) + 1 := by omega
        rw [hk, List.range'_succ]
        simp [hids]
      · simpa [runOps, stepOp, sendCommand, hs] using ih st

/-- C3: from a fresh client, over any sequence of connect / disconnect /
send operations, the ids allocated by the `sendCommand` invocations that
reach the id-allocation step are exactly `1, 2, 3, ...` — the list of issued
ids is an initial integer range, strictly increasing and duplicate-free, so
no two calls ever share an id and no id is reused.  (The class runs
single-threaded, so concurrent in-flight calls are interleavings of these
steps.) -/
theorem sendCommand_id_allocation (ops : List ClientOp) :
    (runOps freshClient ops).2 =
      List.range' 1 ((runOps freshClient ops).1.messageId - 1) ∧
    List.Pairwise (· < ·) (runOps freshClient ops).2 ∧
    (runOps freshClient ops).2.Nodup := by
  obtain ⟨hle, hids⟩ := runOps_ids_aux ops freshClient
  have h1 : freshClient.messageId = 1 := rfl
  rw [h1] at hids
  exact ⟨hids, by rw [hids]; exact List.pairwise_lt_range' _ _,
    by rw [hids]; exact List.nodup_range' _ _⟩

/-- C4 (code_bug, acknowledged by spec section 4.1's design note):
`disconnect` destroys the socket and nulls the field but leaves every entry
of `responseCallbacks` in place, so a call pending at disconnect time is
never settled with a ConnectionClosed failure — the only settlement path is
`processMessage` on an inbound frame, and a destroyed socket delivers
none. -/
theorem disconnect_does_not_settle_pending (st : QrcClient) :
    (QsysDeploy.disconnect st).responseCallbacks = st.responseCallbacks ∧
    (QsysDeploy.disconnect st).socket = false := by
  unfold QsysDeploy.disconnect
  split
  · exact ⟨rfl, rfl⟩
  · next h => exact ⟨rfl, by simpa using h⟩

/-- C9: `sendCommand` on a client whose socket is null rejects immediately
with the not-connected error and leaves the state untouched — the id counter
is not incremented, no callback is registered, and nothing is written. -/
theorem sendCommand_fail_fast (st : QrcClient) (method : String) (params : Json)
    (h : st.socket = false) :
    sendCommand st method params = (st, .rejected "Not connected to Q-SYS Core") := by
  unfold sendCommand
  rw [h]
  simp

/-- Witness for C9's theorem at a fresh (never-connected) client. -/
theorem sendCommand_fail_fast_witness :
    sendCommand freshClient "Logon" (.arr []) =
      (freshClient, .rejected "Not connected to Q-SYS Core") :=
  sendCommand_fail_fast freshClient "Logon" (.arr []) rfl

/-- C8 counterexample: a `null` result is not normalized to an empty list —
reading `result.Components` off `null` throws a `TypeError`, caught and
rethrown by `getComponents`, so the operation fails instead of returning the
empty sequence the claim requires for "every other response shape". -/
theorem getComponents_null_cex :
    getComponents (some .null) = .error "Failed to get components: TypeError" ∧
    getComponents (some .null) ≠ .ok [] :=
  ⟨rfl, fun h => Except.noConfusion h⟩

/-- C8 (amended): `getComponents` returns a bare array result unchanged,
returns `result.Components` unchanged when that field holds an array, and
returns the empty list for every other non-null result value; a `null` (or
absent) result instead fails with the rethrown `TypeError`. -/
theorem getComponents_normalizes :
    (∀ xs, getComponents (some (.arr xs)) = .ok xs) ∧
    (∀ fs ys, List.lookup "Components" fs = some (.arr ys) →
        getComponents (some (.obj fs)) = .ok ys) ∧
    (∀ r, r ≠ .null → (∀ xs, r ≠ .arr xs) →
        (∀ ys, getField r "Components" ≠ some (.arr ys)) →
        getComponents (some r) = .ok []) ∧
    getComponents none = .error "Failed to get components: TypeError" := by
  refine ⟨fun xs => rfl, ?_, ?_, rfl⟩
  · intro fs ys h
    unfold getComponents
    simp [getField, h]
  · intro r hnull harr hcomp
    cases r with
    | null => exact absurd rfl hnull
    | arr xs => exact absurd rfl (harr xs)
    | bool b => rfl
    | num i => rfl
    | str s => rfl
    | obj fs =>
      unfold getComponents
      cases hl : List.lookup "Components" fs with
      | none => simp [getField, hl]
      | some v =>
        cases v with
        | arr ys => exact absurd (by simp [getField, hl]) (hcomp ys)
        | null => simp [getField, hl]
        | bool b => simp [getField, hl]
        | num i => simp [getField, hl]
        | str s => simp [getField, hl]
        | obj gs => simp [getField, hl]

/-- Witness for C8's theorem: the `{Components:[...]}` shape and a numeric
result shape. -/
theorem getComponents_normalizes_witness :
    getComponents (some (.obj [("Components", .arr [.null])])) = .ok [.null] ∧
    getComponents (some (.num 5)) = .ok [] :=
  ⟨getComponents_normalizes.2.1 _ [.null] rfl,
    getComponents_normalizes.2.2.1 (.num 5) (fun h => Json.noConfusion h)
      (fun _ h => Json.noConfusion h) (fun _ h => Option.noConfusion h)⟩

theorem getField_obj (fs : List (String × Json)) (k : String) :
    getField (.obj fs) k = List.lookup k fs := rfl

theorem jsTruthy_obj (fs : List (String × Json)) : jsTruthy (.obj fs) = true := rfl

theorem jsTruthy_arr (xs : List Json) : jsTruthy (.arr xs) = true := rfl

/-- C10: a `Component.Get` result whose `code` control is present with a
falsy `Value` (empty string, `0`, `false`, or `null`) resolves to the empty
string — the `codeControl.Value` truthiness test fails — the same result as
when the `Controls` list is absent or the `code` control is missing from
it. -/
theorem getScript_falsy_value (fs : List (String × Json)) (cs : List Json)
    (c v : Json)
    (h1 : List.lookup "Controls" fs = some (.arr cs))
    (h2 : findCodeControl cs = .ok (some c))
    (h3 : getField c "Value" = some v)
    (h4 : jsTruthy v = false) :
    getScript (some (.obj fs)) = .ok (.str "") ∧
    (∀ gs : List (String × Json), List.lookup "Controls" gs = none →
        getScript (some (.obj gs)) = .ok (.str "")) ∧
    (∀ (gs : List (String × Json)) (ds : List Json),
        List.lookup "Controls" gs = some (.arr ds) →
        findCodeControl ds = .ok none →
        getScript (some (.obj gs)) = .ok (.str "")) := by
  have hcs : 0 < cs.length := by
    cases cs with
    | nil => simp [findCodeControl] at h2
    | cons a as => simp
  refine ⟨?_, ?_, ?_⟩
  · simp [getScript, getField_obj, jsTruthy_obj, jsTruthy_arr, h1, h2, h3, h4, hcs]
  · intro gs hg
    simp [getScript, getField_obj, jsTruthy_obj, hg]
  · intro gs ds hg hnone
    by_cases hd : 0 < ds.length
    · simp [getScript, getField_obj, jsTruthy_obj, jsTruthy_arr, hg, hd, hnone]
    · simp [getScript, getField_obj, jsTruthy_obj, jsTruthy_arr, hg, hd]

/-- Witness for C10's theorem: a `code` control whose `Value` is the empty
string, and a result with no `Controls` field. -/
theorem getScript_falsy_value_witness :
    getScript (some (.obj [("Controls",
        .arr [.obj [("Name", .str "code"), ("Value", .str "")]])])) = .ok (.str "") ∧
    getScript (some (.obj [("Name", .str "X")])) = .ok (.str "") := by
  have h := getScript_falsy_value
    [("Controls", .arr [.obj [("Name", .str "code"), ("Value", .str "")]])]
    [.obj [("Name", .str "code"), ("Value", .str "")]]
    (.obj [("Name", .str "code"), ("Value", .str "")]) (.str "")
    rfl rfl rfl rfl
  exact ⟨h.1, h.2.1 [("Name", .str "X")] rfl⟩

/-- C6: when the component the matching loop finds for the target name has a
Type outside the allow-list, validation fails, `deployScript` reports
failure, and no `Component.Set` command is ever issued to the remote. -/
theorem write_validation_blocks (auth : Bool) (comps : List QComponent)
    (name : String) (comp : QComponent)
    (hfind : findComponent comps name = some comp)
    (htype : comp.Type_ ∉ validTypes) :
    validateComponent comps name = false ∧
    (deployScriptRun auth comps name).1 = false ∧
    "Component.Set" ∉ (deployScriptRun auth comps name).2 := by
  have hval : validateComponent comps name = false := by
    unfold validateComponent
    rw [hfind]
    simpa using htype
  refine ⟨hval, by simp [deployScriptRun, hval], ?_⟩
  simp only [deployScriptRun, hval, if_false, Bool.false_eq_true]
  cases auth <;> decide

/-- Witness for C6's theorem: the spec's example list containing
`{Name:"X", Type:"other_type"}` with the write targeting `"X"`. -/
theorem write_validation_blocks_witness :
    validateComponent [⟨"X", "cmp_1", "other_type"⟩] "X" = false ∧
    "Component.Set" ∉ (deployScriptRun false [⟨"X", "cmp_1", "other_type"⟩] "X").2 := by
  have h := write_validation_blocks false [⟨"X", "cmp_1", "other_type"⟩] "X"
    ⟨"X", "cmp_1", "other_type"⟩ rfl (by decide)
  exact ⟨h.1, h.2.2⟩

end QsysDeploy
